import Mathlib

/-!
# WarpGrep core — shallow embedding

This file embeds the WarpGrep code-search core of `deepagents_cli/tools.py`
(the path sandbox, the sandboxed tool executors `grep` / `read` /
`list_directory`, the tag-grammar codec, the finish resolver and the
bounded turn loop `warp_grep`) as executable Lean definitions, and proves
the behavioural properties stated about it.

Modelling conventions:
* Python strings are Lean `String`s; all scanning is done on `List Char`
  so that every definition evaluates by kernel reduction.
* Filesystem paths are lists of components (`List String`); `Path.resolve`
  is modelled by `pathResolve` on a symlink-free filesystem.
* External subprocesses (`rg`, `tree`) and the remote model endpoint are
  modelled as explicit oracle parameters carried in `Env`; their textual
  results are inputs, never computed.
* A Python exception that the code does not catch is modelled as the
  `Except.error` branch; a caught exception that is rendered into an
  error string stays in `Except.ok`.
* Bounded recursion over shrinking text is expressed with an explicit
  fuel argument always instantiated with more fuel than the text length,
  so the fuel never runs out on the actual argument.
-/

namespace WarpGrep

/-- `MAX_TURNS` from `tools.py`. -/
def MAX_TURNS : Nat := 4

/-- `MAX_GREP_LINES` from `tools.py`. -/
def MAX_GREP_LINES : Nat := 200

/-- `MAX_LIST_LINES` from `tools.py`. -/
def MAX_LIST_LINES : Nat := 200

/-- `MAX_READ_LINES` from `tools.py`. -/
def MAX_READ_LINES : Nat := 800

/-! ## Python-style string primitives -/

/-- Python `str.strip()` on a character list: remove leading and trailing
whitespace. -/
def pyStripChars (cs : List Char) : List Char :=
  ((cs.dropWhile Char.isWhitespace).reverse.dropWhile Char.isWhitespace).reverse

/-- Python `str.strip()`. -/
def pyStrip (s : String) : String :=
  String.mk (pyStripChars s.toList)

/-- Helper for `pySplit`: split a character list on a non-empty separator,
keeping empty pieces, exactly like Python `str.split(sep)`. -/
def pySplitAux (sep : List Char) : Nat → List Char → List Char → List (List Char)
  | 0, _, acc => [acc.reverse]
  | fuel+1, s, acc =>
    if sep.isPrefixOf s then
      acc.reverse :: pySplitAux sep fuel (s.drop sep.length) []
    else
      match s with
      | [] => [acc.reverse]
      | c :: rest => pySplitAux sep fuel rest (c :: acc)

/-- Python `s.split(sep)` for a non-empty separator. -/
def pySplit (s sep : String) : List String :=
  (pySplitAux sep.toList (s.toList.length + 1) s.toList []).map String.mk

/-- Index of the first occurrence of `needle` in the list, if any. -/
def findSub (needle : List Char) : List Char → Option Nat
  | [] => if needle.isEmpty then some 0 else none
  | c :: rest =>
    if needle.isPrefixOf (c :: rest) then some 0
    else (findSub needle rest).map (· + 1)

/-! ## Protocol codec

`_parse_xml_elements` in `tools.py` is built on
`re.finditer(r"<(\\w+)>(.*?)</\\1>", content, re.DOTALL)`.  Note that the
pattern is a *raw* string containing doubled backslashes, so the regex
engine sees `\\` as an escaped literal backslash: the pattern matches
`<` `\` `w`…`w` `>` body `</\1>` (a literal backslash and the digit `1`
in the closing token), not a word tag with a backreference.  The
embedding below reproduces exactly that behaviour. -/

/-- Attribute mapping produced by `_parse_xml_elements`: insertion-ordered
scalar entries plus the list collected under the `"files"` key. -/
inductive Attrs where
  | mk (scalars : List (String × String)) (files : List Attrs)

/-- Scalar entries of an attribute mapping. -/
def Attrs.scalars : Attrs → List (String × String)
  | .mk s _ => s

/-- The `"files"` list of an attribute mapping. -/
def Attrs.files : Attrs → List Attrs
  | .mk _ f => f

/-- Python `dict.get(k)` on the scalar entries. -/
def Attrs.get (a : Attrs) (k : String) : Option String :=
  (a.scalars.find? (fun e => e.1 == k)).map (·.2)

/-- Python `dict.get(k, d)` on the scalar entries. -/
def Attrs.getD (a : Attrs) (k d : String) : String :=
  (a.get k).getD d

/-- Python `k in dict` on the scalar entries. -/
def Attrs.has (a : Attrs) (k : String) : Bool :=
  a.scalars.any (fun e => e.1 == k)

/-- Python dict assignment `d[k] = v`: overwrite in place or append. -/
def dictSet (l : List (String × String)) (k v : String) : List (String × String) :=
  if l.any (fun e => e.1 == k) then
    l.map (fun e => if e.1 == k then (k, v) else e)
  else l ++ [(k, v)]

/-- Assign a scalar key. -/
def Attrs.setScalar : Attrs → String → String → Attrs
  | .mk s f, k, v => .mk (dictSet s k v) f

/-- `args.setdefault("files", []).append(x)`. -/
def Attrs.addFile : Attrs → Attrs → Attrs
  | .mk s f, a => .mk s (f ++ [a])

/-- Try to match the opening `<` `\` `w⁺` `>` of the (escaped-backslash)
regex at the head of the list; return the captured group and the rest. -/
def xmlOpenAt : List Char → Option (List Char × List Char)
  | '<' :: '\\' :: rest =>
    let ws := rest.takeWhile (· = 'w')
    if ws.isEmpty then none
    else
      match rest.drop ws.length with
      | '>' :: tail => some ('\\' :: ws, tail)
      | _ => none
  | _ => none

/-- The literal closing token `</\1>` the regex expects. -/
def xmlCloseLit : List Char := ['<', '/', '\\', '1', '>']

/-- All non-overlapping matches of `re.finditer(r"<(\\w+)>(.*?)</\\1>", ·)`,
as (group 1, group 2) pairs, scanning left to right. -/
def xmlScanAux : Nat → List Char → List (List Char × List Char)
  | 0, _ => []
  | fuel+1, s =>
    match xmlOpenAt s with
    | some (key, afterOpen) =>
      match findSub xmlCloseLit afterOpen with
      | some j =>
        (key, afterOpen.take j) :: xmlScanAux fuel (afterOpen.drop (j + xmlCloseLit.length))
      | none =>
        match s with
        | [] => []
        | _ :: t => xmlScanAux fuel t
    | none =>
      match s with
      | [] => []
      | _ :: t => xmlScanAux fuel t

/-- Body of `_parse_xml_elements`, with fuel bounding the `<file>`
recursion depth (always instantiated above the content length). -/
def parseXmlFuel : Nat → List Char → Attrs
  | 0, _ => .mk [] []
  | fuel+1, s =>
    (xmlScanAux (s.length + 1) s).foldl
      (fun acc kv =>
        let key := String.mk kv.1
        let value := pyStripChars kv.2
        if key = "file" then acc.addFile (parseXmlFuel fuel value)
        else acc.setScalar key (String.mk value))
      (.mk [] [])

/-- `_parse_xml_elements` from `tools.py`. -/
def _parse_xml_elements (content : String) : Attrs :=
  parseXmlFuel (content.toList.length + 1) content.toList

/-- `_ToolCall` from `tools.py`. -/
structure _ToolCall where
  name : String
  args : Attrs

/-- The fixed tool-name list iterated by `_parse_tool_calls`. -/
def toolNames : List String := ["grep", "read", "list_directory", "finish"]

/-- Matches of `<name>(.*?)</name>` (DOTALL, non-overlapping, lazily
closed at the first closing tag), as in `_parse_tool_calls`. -/
def tagBodiesAux (openTag closeTag : List Char) : Nat → List Char → List (List Char)
  | 0, _ => []
  | fuel+1, s =>
    match findSub openTag s with
    | none => []
    | some i =>
      let after := s.drop (i + openTag.length)
      match findSub closeTag after with
      | none => []
      | some j =>
        after.take j :: tagBodiesAux openTag closeTag fuel (after.drop (j + closeTag.length))

/-- All bodies of top-level `<name>…</name>` occurrences in `s`. -/
def tagBodies (name : String) (s : List Char) : List (List Char) :=
  tagBodiesAux ("<" ++ name ++ ">").toList ("</" ++ name ++ ">").toList (s.length + 1) s

/-- `re.sub(r"<think>.*?</think>", "", ·, flags=re.DOTALL)`. -/
def removeThinkAux : Nat → List Char → List Char
  | 0, s => s
  | fuel+1, s =>
    match findSub "<think>".toList s with
    | none => s
    | some i =>
      let after := s.drop (i + 7)
      match findSub "</think>".toList after with
      | none => s
      | some j => s.take i ++ removeThinkAux fuel (after.drop (j + 8))

/-- `_parse_tool_calls` from `tools.py`. -/
def _parse_tool_calls (response : String) : List _ToolCall :=
  let cleaned := removeThinkAux (response.toList.length + 1) response.toList
  (toolNames.map (fun n =>
    (tagBodies n cleaned).map (fun body =>
      _ToolCall.mk n (_parse_xml_elements (String.mk body))))).flatten

example : _parse_tool_calls "<grep><pattern>def login</pattern></grep>" =
    [⟨"grep", .mk [] []⟩] := rfl

/-! ## Path sandbox

Absolute paths are lists of components below the filesystem root.
`pathResolve` models `Path.resolve()` on a symlink-free filesystem:
`".."` pops a component (staying put at the root), `"."` and empty
components vanish. -/

/-- Canonicalize a component list, as `Path.resolve()` does. -/
def pathResolve (comps : List String) : List String :=
  comps.foldl
    (fun acc c =>
      if c = "" ∨ c = "." then acc
      else if c = ".." then acc.dropLast
      else acc ++ [c])
    []

/-- `repo_root / rel_path`: an absolute `rel_path` replaces the root,
as with `pathlib` joining. -/
def pathJoin (root : List String) (rel : String) : List String :=
  match rel.toList with
  | '/' :: _ => pySplit rel "/"
  | _ => root ++ pySplit rel "/"

/-- Render a path for embedding into message strings. -/
def pathToString (p : List String) : String :=
  "/" ++ String.intercalate "/" p

/-- `_safe_path` from `tools.py`: canonicalize the joined path and require
the canonical repo root to be an ancestor, else `ValueError("Path outside
repo root")`. -/
def _safe_path (repo_root : List String) (rel_path : String) : Except String (List String) :=
  let candidate := pathResolve (pathJoin repo_root rel_path)
  if (pathResolve repo_root).isPrefixOf candidate then .ok candidate
  else .error "Path outside repo root"

/-! ## The read executor -/

/-- The files of the sandboxed filesystem: canonical path ↦ text content. -/
def Fs := List String → Option String

/-- Python `str.splitlines()`, restricted to `"\n"` separators (the only
line terminator the embedded texts use). -/
def pySplitlines (s : String) : List String :=
  if s = "" then []
  else
    let parts := pySplit s "\n"
    if parts.getLast? = some "" then parts.dropLast else parts

/-- Digits-only numeral parse used by `pyInt`. -/
def pyDigits? (cs : List Char) : Option Nat :=
  if cs.isEmpty then none
  else if cs.all Char.isDigit then
    some (cs.foldl (fun n c => n * 10 + (c.toNat - '0'.toNat)) 0)
  else none

/-- Python `int(str)`: optional surrounding whitespace, optional sign,
digits; `none` models the `ValueError` it raises otherwise. -/
def pyInt (s : String) : Option Int :=
  match pyStripChars s.toList with
  | '-' :: rest => (pyDigits? rest).map (fun n => -(n : Int))
  | '+' :: rest => (pyDigits? rest).map (fun n => (n : Int))
  | cs => (pyDigits? cs).map (fun n => (n : Int))

/-- One comma-separated piece of the `lines` argument, as `_execute_read`
destructures it: with a `"-"` it must split into exactly two ints
(otherwise unpacking or `int()` raises), else a single int. -/
def parseRangePart (p : String) : Option (Int × Int) :=
  if p.toList.contains '-' then
    match pySplit p "-" with
    | [a, b] =>
      match pyInt a, pyInt b with
      | some x, some y => some (x, y)
      | _, _ => none
    | _ => none
  else (pyInt p).map (fun v => (v, v))

/-- All range parts of a `lines` argument; `none` models the uncaught
`ValueError` of `_execute_read`. -/
def parseLinesRanges (s : String) : Option (List (Int × Int)) :=
  (pySplit s ",").mapM parseRangePart

/-- Python `range(lo, hi)` over the integers. -/
def intRange (lo hi : Int) : List Int :=
  (List.range (hi - lo).toNat).map (fun (k : Nat) => lo + (k : Int))

/-- `selected` as accumulated by `_execute_read`:
`range(start - 1, min(end, len(all_lines)))` for each range part. -/
def selectedIdxs (ranges : List (Int × Int)) (n : Nat) : List Int :=
  ranges.foldl (fun acc r => acc ++ intRange (r.1 - 1) (min r.2 (n : Int))) []

/-- Insert into a strictly ascending list, dropping duplicates. -/
def insertUnique (x : Int) : List Int → List Int
  | [] => [x]
  | y :: ys =>
    if x < y then x :: y :: ys
    else if x = y then y :: ys
    else y :: insertUnique x ys

/-- Python `sorted(set(l))`: the ascending duplicate-free enumeration. -/
def sortedDedup (l : List Int) : List Int :=
  l.foldl (fun acc x => insertUnique x acc) []

/-- The numbered output line `f"{idx + 1}|{line}"`. -/
def numberLine (i : Nat) (content : String) : String :=
  toString (i + 1) ++ "|" ++ content

/-- The loop of `_execute_read` over `sorted(set(selected))`: state is
`(prev_idx, output_lines)` with `prev_idx` starting at `-2`; out-of-bounds
indices are skipped, and `"..."` is emitted when `prev_idx >= 0` and
`idx > prev_idx + 1`. -/
def readStep (all : List String) (st : Int × List String) (idx : Int) : Int × List String :=
  if idx < 0 ∨ (all.length : Int) ≤ idx then st
  else
    let out := if 0 ≤ st.1 ∧ st.1 + 1 < idx then st.2 ++ ["..."] else st.2
    (idx, out ++ [numberLine idx.toNat (all.getD idx.toNat "")])

def readRenderFold (all : List String) (idxs : List Int) : List String :=
  (idxs.foldl (readStep all) (-2, [])).2

/-- The whole-file branch: every line numbered. -/
def numberAll (all : List String) : List String :=
  (List.range all.length).map (fun i => numberLine i (all.getD i ""))

/-- The 800-line hard cap of `_execute_read`: keep the first
`MAX_READ_LINES` output lines and append the truncation footer. -/
def readCap (all : List String) (out : List String) : List String :=
  if MAX_READ_LINES < out.length then
    out.take MAX_READ_LINES ++ ["... truncated (" ++ toString all.length ++ " total lines)"]
  else out

/-- The output lines `_execute_read` builds from the file's lines and the
`lines` argument; `Except.error` is the uncaught `ValueError` of a
malformed `lines` string (an empty `lines` string is falsy in Python and
selects the whole file). -/
def readRender (all : List String) (lines : Option String) : Except String (List String) :=
  match lines with
  | none => .ok (readCap all (numberAll all))
  | some l =>
    if l = "" then .ok (readCap all (numberAll all))
    else
      match parseLinesRanges l with
      | none => .error "ValueError"
      | some ranges =>
        .ok (readCap all (readRenderFold all (sortedDedup (selectedIdxs ranges all.length))))

/-- `_execute_read` from `tools.py`.  Sandbox violations and a missing
file are caught and rendered as `Error: …` strings (`Except.ok`); only
the `ValueError` from a malformed `lines` argument escapes as
`Except.error`. -/
def _execute_read (fs : Fs) (repo_root : List String) (path : String) (lines : Option String) :
    Except String String :=
  match _safe_path repo_root path with
  | .error e => .ok ("Error: " ++ e)
  | .ok fp =>
    match fs fp with
    | none => .ok ("Error: file not found: " ++ path)
    | some text =>
      (readRender (pySplitlines text) lines).map (String.intercalate "\n")

/-! ## The finish resolver -/

/-- The body of the loop of `_resolve_finish` for one `<file>` spec:
`lines == "*"` becomes `None`, then the spec goes verbatim to
`_execute_read`. -/
def _resolve_one (fs : Fs) (repo_root : List String) (spec : Attrs) :
    Except String (String × String) :=
  let path := spec.getD "path" ""
  let lines0 := spec.get "lines"
  let lines := if lines0 = some "*" then none else lines0
  (_execute_read fs repo_root path lines).map (fun c => (path, c))

/-- `_resolve_finish` from `tools.py`: resolve every spec of the finish
call's `files` list, in order; an uncaught read exception propagates. -/
def _resolve_finish (fs : Fs) (repo_root : List String) (finish_call : _ToolCall) :
    Except String (List (String × String)) :=
  finish_call.args.files.mapM (_resolve_one fs repo_root)

/-! ## Directory trees and the fallback walk -/

/-- A filesystem entry for the directory view used by `list_directory`. -/
inductive FsEntry where
  | file (name : String)
  | dir (name : String) (children : List FsEntry)

/-- Name of an entry. -/
def FsEntry.name : FsEntry → String
  | .file n => n
  | .dir n _ => n

/-- The `"/"` suffix appended to directories by the fallback walk. -/
def FsEntry.suffix : FsEntry → String
  | .file _ => ""
  | .dir _ _ => "/"

/-- Lexicographic strict order on character lists (code-point order, as
Python compares path names). -/
def strLtChars : List Char → List Char → Bool
  | [], [] => false
  | [], _ :: _ => true
  | _ :: _, [] => false
  | a :: as, b :: bs => if a < b then true else if b < a then false else strLtChars as bs

/-- Strict name order. -/
def strLt (a b : String) : Bool :=
  strLtChars a.toList b.toList

/-- Stable insertion by name (equal names keep arrival order). -/
def insertByName (x : FsEntry) : List FsEntry → List FsEntry
  | [] => [x]
  | y :: ys => if strLt x.name y.name then x :: y :: ys else y :: insertByName x ys

/-- Python `sorted(path.iterdir())` within one directory. -/
def sortByName (l : List FsEntry) : List FsEntry :=
  l.foldl (fun acc x => insertByName x acc) []

/-- The `excludes` set of `_fallback_list_dir`. -/
def excludesList : List String :=
  ["node_modules", "__pycache__", "venv", ".venv", "dist", "build", ".git"]

/-- `item.name.startswith(".") and item.name not in {".env"}`. -/
def hiddenSkip (n : String) : Bool :=
  match n.toList with
  | '.' :: _ => n ≠ ".env"
  | _ => false

/-- `'  ' * depth`. -/
def indentStr (depth : Nat) : String :=
  String.mk (List.replicate (2 * depth) ' ')

/-- Line filter of the walk: keep the line when no pattern was compiled or
the compiled regex's `search` accepts it.  A compiled regex is modelled by
its match predicate. -/
def searchOk (search : Option (String → Bool)) (line : String) : Bool :=
  match search with
  | none => true
  | some f => f line

/-- The recursive `walk` of `_fallback_list_dir`.  The entry guard
`if depth > max_depth: return` is expressed by the fuel
`max_depth + 1 - depth`, which starts at 4; `depth` itself only feeds the
indentation.  Subdirectories are recursed into whether or not their own
line survived the filter. -/
def walkFb (search : Option (String → Bool)) : Nat → Nat → List FsEntry → List String
  | 0, _, _ => []
  | fuel+1, depth, entries =>
    ((sortByName entries).map (fun e =>
      if hiddenSkip e.name ∨ excludesList.contains e.name then []
      else
        let line := indentStr depth ++ e.name ++ e.suffix
        (if searchOk search line then [line] else []) ++
        (match e with
         | .dir _ children => walkFb search fuel (depth + 1) children
         | .file _ => []))).flatten

/-- `_fallback_list_dir` from `tools.py`: compile the pattern (the
`re.compile` call sits outside any handler, so a malformed pattern is an
uncaught `re.error`, modelled by `Except.error`; an empty pattern string
is falsy and compiles nothing), walk, and return only the first
`MAX_LIST_LINES` lines. -/
def _fallback_list_dir (regexOk : String → Bool) (regexSearch : String → String → Bool)
    (dir_entries : List FsEntry) (pattern : Option String) :
    Except String (List String) :=
  match pattern with
  | some p =>
    if p = "" then .ok ((walkFb none 4 0 dir_entries).take MAX_LIST_LINES)
    else if regexOk p then
      .ok ((walkFb (some (regexSearch p)) 4 0 dir_entries).take MAX_LIST_LINES)
    else .error "re.error"
  | none => .ok ((walkFb none 4 0 dir_entries).take MAX_LIST_LINES)

/-! ## Environment: filesystem views and external oracles -/

/-- Ambient state of one `warp_grep` invocation: the sandboxed filesystem
(as the file-content and directory-subtree views), availability and
outcomes of the external `rg` and `tree` executables (their textual
results are oracle inputs, never computed here), and regex compilation /
search oracles for `list_directory` patterns.  `rgRun` and `treeRun`
return `Except.error` with the already-rendered `Error: …` text when the
subprocess call raises or times out (those exceptions are caught in the
source and turned into exactly that string). -/
structure Env where
  apiKeyPresent : Bool
  fs : Fs
  dirs : List String → Option (List FsEntry)
  rgAvailable : Bool
  rgRun : String → List String → Option String → Except String String
  treeAvailable : Bool
  treeRun : List String → Except String String
  regexOk : String → Bool
  regexSearch : String → String → Bool
  systemPrompt : String

/-! ## The grep executor -/

/-- `output.strip().split("\n") if output.strip() else []`. -/
def pyLines (output : String) : List String :=
  if pyStrip output = "" then [] else pySplit (pyStrip output) "\n"

/-- The over-broad-query sentinel shared by `grep` and `list_directory`. -/
def tooMuchSentinel : String :=
  "query not specific enough, tool called tried to return too much context and failed"

/-- `_execute_grep` from `tools.py`: missing binary, sandbox violations
and subprocess failures all degrade to `Error: …` strings; more than
`MAX_GREP_LINES` result lines discard the output for the sentinel; an
empty result is `"no matches"`. -/
def _execute_grep (env : Env) (repo_root : List String) (pattern : String)
    (sub_dir : String) (glob : Option String) : String :=
  if !env.rgAvailable then "Error: ripgrep (rg) not installed"
  else
    match _safe_path repo_root sub_dir with
    | .error e => "Error: " ++ e
    | .ok p =>
      match env.rgRun pattern p glob with
      | .error e => e
      | .ok output =>
        if MAX_GREP_LINES < (pyLines output).length then tooMuchSentinel
        else if pyStrip output = "" then "no matches" else pyStrip output

/-! ## The list_directory executor -/

/-- The filter-and-ceiling tail of `_execute_list_directory`: when a
(truthy) pattern was given, the lines are non-empty and the pattern
compiles, keep only matching lines (a malformed pattern is swallowed by
`except re.error: pass` here); then more than `MAX_LIST_LINES` surviving
lines yield the sentinel, else the joined listing. -/
def listFiltered (env : Env) (pattern : Option String) (lines : List String) : List String :=
  match pattern with
  | some p =>
    if p ≠ "" ∧ ¬ lines.isEmpty then
      if env.regexOk p then lines.filter (env.regexSearch p) else lines
    else lines
  | none => lines

def listPost (env : Env) (pattern : Option String) (lines : List String) : String :=
  let lines := listFiltered env pattern lines
  if MAX_LIST_LINES < lines.length then tooMuchSentinel
  else String.intercalate "\n" lines

/-- `_execute_list_directory` from `tools.py`: sandbox and existence
failures are `Error: …` strings; with the `tree` binary available its
stdout is split into lines (a failing `tree` run returns its `Error: …`
string); otherwise `_fallback_list_dir` walks (whose uncaught `re.error`
propagates); both feed `listPost`. -/
def _execute_list_directory (env : Env) (repo_root : List String) (path : String)
    (pattern : Option String) : Except String String :=
  match _safe_path repo_root path with
  | .error e => .ok ("Error: " ++ e)
  | .ok dp =>
    match env.dirs dp with
    | none => .ok ("Error: directory not found: " ++ path)
    | some entries =>
      if env.treeAvailable then
        match env.treeRun dp with
        | .error e => .ok ("Error: " ++ e)
        | .ok output => .ok (listPost env pattern (pyLines output))
      else
        match _fallback_list_dir env.regexOk env.regexSearch entries pattern with
        | .error e => .error e
        | .ok lines => .ok (listPost env pattern lines)

/-! ## Turn-loop plumbing -/

/-- `_format_result` from `tools.py`: re-wrap one executed tool's output
with its tag name and a minimal attribute echo. -/
def _format_result (tool_call : _ToolCall) (output : String) : String :=
  if tool_call.name = "grep" then
    let attrs := "pattern=\"" ++ tool_call.args.getD "pattern" "" ++ "\""
    let attrs :=
      if tool_call.args.has "sub_dir" then
        attrs ++ " sub_dir=\"" ++ tool_call.args.getD "sub_dir" "" ++ "\""
      else attrs
    let attrs :=
      if tool_call.args.has "glob" then
        attrs ++ " glob=\"" ++ tool_call.args.getD "glob" "" ++ "\""
      else attrs
    "<grep " ++ attrs ++ ">\n" ++ output ++ "\n</grep>"
  else if tool_call.name = "read" then
    let attrs := "path=\"" ++ tool_call.args.getD "path" "" ++ "\""
    let attrs :=
      if tool_call.args.has "lines" then
        attrs ++ " lines=\"" ++ tool_call.args.getD "lines" "" ++ "\""
      else attrs
    "<read " ++ attrs ++ ">\n" ++ output ++ "\n</read>"
  else if tool_call.name = "list_directory" then
    "<list_directory path=\"" ++ tool_call.args.getD "path" "" ++ "\">\n" ++
      output ++ "\n</list_directory>"
  else output

/-- `_format_turn_message` from `tools.py` at its call-site defaults
(`max_chars = 160000`).  The float percentage `int((chars/max)*100)` is
modelled by integer division. -/
def _format_turn_message (turn : Nat) (chars_used : Nat) : String :=
  let msg :=
    if 3 ≤ turn then
      "You have used 3 turns, you only have 1 turn remaining. You have run out of turns to explore the code base and MUST call the finish tool now"
    else
      "You have used " ++ toString turn ++ " turn" ++ (if turn ≠ 1 then "s" else "") ++
      " and have " ++ toString (4 - turn) ++ " remaining"
  let pct := chars_used * 100 / 160000
  let budget := "<context_budget>" ++ toString pct ++ "% (" ++
    toString (chars_used / 1000) ++ "K/" ++ toString (160000 / 1000) ++ "K chars)</context_budget>"
  "\n" ++ msg ++ "\n" ++ budget

/-- The per-call dispatch of the turn loop of `warp_grep`, with the
`_format_result` wrapping.  None of the calls sits in a handler: a read
`ValueError` (or a fallback-walk `re.error`) propagates. -/
def execOneCall (env : Env) (root : List String) (tc : _ToolCall) : Except String String :=
  if tc.name = "grep" then
    .ok (_format_result tc (_execute_grep env root (tc.args.getD "pattern" "")
      (tc.args.getD "sub_dir" ".") (tc.args.get "glob")))
  else if tc.name = "read" then
    (_execute_read env.fs root (tc.args.getD "path" "") (tc.args.get "lines")).map
      (_format_result tc)
  else if tc.name = "list_directory" then
    (_execute_list_directory env root (tc.args.getD "path" ".") (tc.args.get "pattern")).map
      (_format_result tc)
  else .ok (_format_result tc ("Unknown tool: " ++ tc.name))

/-- Execute every call of one turn, in parse order. -/
def execAllCalls (env : Env) (root : List String) (tcs : List _ToolCall) :
    Except String (List String) :=
  tcs.mapM (execOneCall env root)

/-- A chat message. -/
structure Message where
  role : String
  content : String

/-- The structured result of `warp_grep`: the success dict, the error
dict, or an uncaught exception escaping the whole call. -/
inductive WResult where
  | ok (query : String) (repo_root : List String) (results : List (String × String))
  | err (msg : String)
  | raised (e : String)

/-- The finish branch of the turn loop: resolve and return; an uncaught
read exception escapes. -/
def finishResult (env : Env) (query : String) (root : List String) (fc : _ToolCall) : WResult :=
  match _resolve_finish env.fs root fc with
  | .ok rs => .ok query root rs
  | .error e => .raised e

/-- `_get_repo_structure` from `tools.py`. -/
def _get_repo_structure (env : Env) (root : List String) : Except String String :=
  (_execute_list_directory env root "." none).map
    (fun output => "<repo_structure>\n" ++ output ++ "\n</repo_structure>")

/-- The `for turn in range(MAX_TURNS)` loop of `warp_grep`.  `fuel` is the
number of remaining loop iterations (initially `MAX_TURNS`), `turn` the
number of completed ones.  The second component counts the model round
trips (`_call_morph` invocations) performed.  The remote reasoner is the
oracle `morph` from the full transcript; its failure is caught and
becomes the API-error result. -/
def warpGrepAux (env : Env) (morph : List Message → Except String String)
    (query : String) (root : List String) :
    Nat → Nat → List Message → Nat → WResult × Nat
  | 0, _, _, _ => (.err "WarpGrep did not finish within turn limit.", 0)
  | fuel+1, turn, msgs, chars =>
    match morph msgs with
    | .error e => (.err ("WarpGrep API error: " ++ e), 1)
    | .ok response =>
      let msgs' := msgs ++ [⟨"assistant", response⟩]
      let chars' := chars + response.length
      let tcs := _parse_tool_calls response
      if tcs.isEmpty then (.err "WarpGrep returned no tool calls.", 1)
      else
        match tcs.find? (fun tc => tc.name == "finish") with
        | some fc => (finishResult env query root fc, 1)
        | none =>
          match execAllCalls env root tcs with
          | .error e => (.raised e, 1)
          | .ok outs =>
            let content := String.intercalate "\n\n" outs ++ _format_turn_message (turn + 1) chars'
            let r := warpGrepAux env morph query root fuel (turn + 1)
              (msgs' ++ [⟨"user", content⟩]) (chars' + content.length)
            (r.1, r.2 + 1)

/-- `warp_grep` from `tools.py`: the entry checks (credential, repo root
existence), the initial transcript (system prompt; repo structure plus
the query), and the turn loop.  Returns the result and the number of
model round trips performed. -/
def warp_grep (env : Env) (morph : List Message → Except String String)
    (query : String) (repo_root : List String) : WResult × Nat :=
  if !env.apiKeyPresent then (.err "MORPH_API_KEY not configured in environment.", 0)
  else
    let root := pathResolve repo_root
    if (env.dirs root).isNone then
      (.err ("Repo root does not exist: " ++ pathToString root), 0)
    else
      match _get_repo_structure env root with
      | .error e => (.raised e, 0)
      | .ok repoStruct =>
        let msgs : List Message :=
          [⟨"system", env.systemPrompt⟩,
           ⟨"user", repoStruct ++ "\n\n<search_string>\n" ++ query ++ "\n</search_string>"⟩]
        let chars := (msgs.map (fun m => m.content.length)).sum
        warpGrepAux env morph query root MAX_TURNS 0 msgs chars

/-! ## Claim theorems -/

/-- **C1** (code-bug evidence).  Parsing
`"<grep><pattern>def login</pattern></grep>"` does yield exactly one
ToolCall named `grep`, but its attribute mapping is *empty*: the claimed
`pattern = "def login"` entry is never extracted.  The raw-string regex
`r"<(\\w+)>(.*?)</\\1>"` of `_parse_xml_elements` contains doubled
backslashes, so the regex engine sees a literal backslash: it matches
only tags of the shape `<\w…w>` closed by the literal `</\1>` (third
conjunct), never an ordinary word tag (second conjunct).  The attribute
extraction described by the spec — and by the tool-call format the
system prompt itself documents — therefore never happens. -/
theorem parse_grep_example_yields_empty_args :
    _parse_tool_calls "<grep><pattern>def login</pattern></grep>" =
      [⟨"grep", .mk [] []⟩] ∧
    _parse_xml_elements "<pattern>def login</pattern>" = .mk [] [] ∧
    _parse_xml_elements "<\\w>def login</\\1>" = .mk [("\\w", "def login")] [] :=
  ⟨rfl, rfl, rfl⟩

/-- **C9**.  Every ToolCall parsed from any response text has its name in
the fixed list `["grep", "read", "list_directory", "finish"]`; a tag with
any other name never produces a ToolCall, and parsing is a total
function, so unknown tags never cause an error. -/
theorem parse_tool_calls_names_in_fixed_set (response : String) (tc : _ToolCall)
    (h : tc ∈ _parse_tool_calls response) :
    tc.name ∈ toolNames := by
  unfold _parse_tool_calls at h
  simp only [List.mem_flatten, List.mem_map] at h
  obtain ⟨l, ⟨n, hn, rfl⟩, htc⟩ := h
  simp only [List.mem_map] at htc
  obtain ⟨body, _, rfl⟩ := htc
  exact hn

/-- Witness for **C9**: a response mixing an unknown `<foo>` tag with a
`<read>` call parses to exactly the read call, whose name is in the fixed
set. -/
theorem parse_tool_calls_names_in_fixed_set_witness :
    (⟨"read", .mk [] []⟩ : _ToolCall) ∈
      _parse_tool_calls "<foo><x>1</x></foo><read><path>p</path></read>" ∧
    (⟨"read", .mk [] []⟩ : _ToolCall).name ∈ toolNames := by
  have hmem : (⟨"read", .mk [] []⟩ : _ToolCall) ∈
      _parse_tool_calls "<foo><x>1</x></foo><read><path>p</path></read>" := by
    rw [show _parse_tool_calls "<foo><x>1</x></foo><read><path>p</path></read>" =
      [⟨"read", .mk [] []⟩] from rfl]
    exact List.mem_singleton.mpr rfl
  exact ⟨hmem, parse_tool_calls_names_in_fixed_set _ _ hmem⟩

/-- **C5**.  Whenever the `rg` invocation succeeds but its output has more
than `MAX_GREP_LINES` (200) stripped lines, `_execute_grep` discards the
output entirely and returns exactly the sentinel string — never a
truncated or partial listing. -/
theorem grep_over_200_lines_returns_sentinel (env : Env) (repo_root : List String)
    (pattern sub_dir : String) (glob : Option String) (p : List String) (output : String)
    (hrg : env.rgAvailable = true)
    (hsp : _safe_path repo_root sub_dir = .ok p)
    (hrun : env.rgRun pattern p glob = .ok output)
    (hlen : MAX_GREP_LINES < (pyLines output).length) :
    _execute_grep env repo_root pattern sub_dir glob = tooMuchSentinel := by
  unfold _execute_grep
  simp only [hrg, hsp, hrun, Bool.not_true, Bool.false_eq_true, if_false]
  simp [hlen]

/-- A 201-line `rg` output. -/
def grepWitnessOutput : String :=
  String.mk ((List.replicate 200 ['m', '\n']).flatten ++ ['m'])

/-- Environment whose `rg` oracle produces `grepWitnessOutput`. -/
def envGrepWitness : Env where
  apiKeyPresent := true
  fs := fun _ => none
  dirs := fun _ => none
  rgAvailable := true
  rgRun := fun _ _ _ => .ok grepWitnessOutput
  treeAvailable := false
  treeRun := fun _ => .ok ""
  regexOk := fun _ => true
  regexSearch := fun _ _ => true
  systemPrompt := ""

set_option maxRecDepth 100000 in
/-- Witness for **C5** at a concrete 201-line output. -/
theorem grep_over_200_lines_returns_sentinel_witness :
    _execute_grep envGrepWitness [] "p" "." none = tooMuchSentinel :=
  grep_over_200_lines_returns_sentinel envGrepWitness [] "p" "." none [] grepWitnessOutput
    rfl rfl rfl (by decide)

/-- **C7**.  A finish FileSpec whose `lines` field is the literal `"*"`
resolves to exactly `_execute_read` of its path with no `lines` argument
(first conjunct), and on any readable file that read is the whole file
numbered (second conjunct) — so the two operations agree extensionally on
every readable file. -/
theorem finish_star_equals_read_whole_file (fs : Fs) (repo_root : List String)
    (spec : Attrs) (hstar : spec.get "lines" = some "*") :
    _resolve_one fs repo_root spec =
      (_execute_read fs repo_root (spec.getD "path" "") none).map
        (fun c => (spec.getD "path" "", c)) ∧
    ∀ fp text, _safe_path repo_root (spec.getD "path" "") = .ok fp → fs fp = some text →
      _execute_read fs repo_root (spec.getD "path" "") none =
        .ok (String.intercalate "\n"
          (readCap (pySplitlines text) (numberAll (pySplitlines text)))) := by
  constructor
  · unfold _resolve_one
    rw [hstar]
    simp
  · intro fp text hsp hfs
    unfold _execute_read
    simp only [hsp, hfs]
    rfl

/-- Filesystem with a single two-line file `a.py`. -/
def fsStarWitness : Fs :=
  fun p => if p = ["a.py"] then some "line1\nline2" else none

/-- Witness for **C7** at a concrete spec and file. -/
theorem finish_star_equals_read_whole_file_witness :
    _resolve_one fsStarWitness [] (.mk [("path", "a.py"), ("lines", "*")] []) =
      (_execute_read fsStarWitness [] "a.py" none).map (fun c => ("a.py", c)) ∧
    _execute_read fsStarWitness [] "a.py" none = .ok "1|line1\n2|line2" := by
  have h := finish_star_equals_read_whole_file fsStarWitness []
    (.mk [("path", "a.py"), ("lines", "*")] []) rfl
  exact ⟨h.1, (h.2 ["a.py"] "line1\nline2" rfl rfl).trans rfl⟩

/-- Filesystem holding `/etc/passwd`. -/
def fsEtc : Fs :=
  fun p => if p = ["etc", "passwd"] then some "root:x:0:0" else none

/-- **C3** (counterexample).  With `repo_root = "/etc"`, the relative path
`"../../etc/passwd"` canonicalizes to `/etc/passwd`, which *is* a
descendant of the root: `_safe_path` succeeds and a read routed through
the sandbox returns the file's numbered content.  With `repo_root = "/"`
it succeeds as well.  So the claim's "fails for every repo_root" is
false. -/
theorem sandbox_dotdot_etc_passwd_not_always_rejected :
    _safe_path ["etc"] "../../etc/passwd" = .ok ["etc", "passwd"] ∧
    _execute_read fsEtc ["etc"] "../../etc/passwd" none = .ok "1|root:x:0:0" ∧
    _safe_path [] "../../etc/passwd" = .ok ["etc", "passwd"] :=
  ⟨rfl, rfl, rfl⟩

/-- **C3** (amended).  For every canonical repo root at depth ≥ 2 whose
last two components are not exactly `etc`, `passwd` — i.e. whenever the
canonicalized result is not a descendant of the root, which the
counterexample shows is not the case for every root — `_safe_path`
rejects `"../../etc/passwd"` with the sandbox error, and a read routed
through the sandbox returns the sandbox error string, never the file's
content. -/
theorem sandbox_rejects_dotdot_etc_passwd_deep_root (d : List String) (a b : String)
    (hres : pathResolve (d ++ [a, b]) = d ++ [a, b])
    (hne : ¬(a = "etc" ∧ b = "passwd")) :
    _safe_path (d ++ [a, b]) "../../etc/passwd" = .error "Path outside repo root" ∧
    ∀ (fs : Fs) (lines : Option String),
      _execute_read fs (d ++ [a, b]) "../../etc/passwd" lines =
        .ok "Error: Path outside repo root" := by
  have hjoin : pathResolve (pathJoin (d ++ [a, b]) "../../etc/passwd") =
      d ++ ["etc", "passwd"] := by
    show pathResolve ((d ++ [a, b]) ++ ["..", "..", "etc", "passwd"]) = d ++ ["etc", "passwd"]
    unfold pathResolve
    rw [List.foldl_append]
    have hroot : List.foldl (fun acc c =>
        if c = "" ∨ c = "." then acc
        else if c = ".." then acc.dropLast
        else acc ++ [c]) [] (d ++ [a, b]) = d ++ [a, b] := hres
    rw [hroot]
    show ((((d ++ [a, b]).dropLast.dropLast) ++ ["etc"]) ++ ["passwd"]) = d ++ ["etc", "passwd"]
    have h1 : (d ++ [a, b]).dropLast = d ++ [a] := by
      rw [show d ++ [a, b] = (d ++ [a]) ++ [b] by simp]
      exact List.dropLast_concat
    rw [h1, List.dropLast_concat]
    simp
  have hpre : ((d ++ [a, b]).isPrefixOf (d ++ ["etc", "passwd"])) = false := by
    rw [Bool.eq_false_iff]
    intro hcontra
    rw [List.isPrefixOf_iff_prefix] at hcontra
    rw [List.prefix_append_right_inj] at hcontra
    rw [List.cons_prefix_cons] at hcontra
    rcases hcontra with ⟨ha, hb⟩
    rw [List.cons_prefix_cons] at hb
    exact hne ⟨ha, hb.1⟩
  have hsafe : _safe_path (d ++ [a, b]) "../../etc/passwd" =
      .error "Path outside repo root" := by
    unfold _safe_path
    rw [hjoin, hres]
    simp [hpre]
  refine ⟨hsafe, fun fs lines => ?_⟩
  unfold _execute_read
  rw [hsafe]
  rfl

/-- Witness for the amended **C3** at the concrete root `/home/user/repo`. -/
theorem sandbox_rejects_dotdot_etc_passwd_deep_root_witness :
    _safe_path ["home", "user", "repo"] "../../etc/passwd" =
      .error "Path outside repo root" ∧
    _execute_read (fun _ => none) ["home", "user", "repo"] "../../etc/passwd" none =
      .ok "Error: Path outside repo root" := by
  have h := sandbox_rejects_dotdot_etc_passwd_deep_root ["home"] "user" "repo"
    (by decide) (by decide)
  exact ⟨h.1, h.2 (fun _ => none) none⟩

/-- Filesystem with root `/r` containing the two-line file `f`. -/
def fsBadLines : Fs :=
  fun p => if p = ["r", "f"] then some "a\nb" else none

/-- Environment over `fsBadLines`. -/
def envBadLines : Env where
  apiKeyPresent := true
  fs := fsBadLines
  dirs := fun _ => none
  rgAvailable := false
  rgRun := fun _ _ _ => .ok ""
  treeAvailable := false
  treeRun := fun _ => .ok ""
  regexOk := fun _ => true
  regexSearch := fun _ _ => true
  systemPrompt := ""

/-- A read ToolCall whose `lines` argument is not a well-formed range
spec. -/
def badReadCall : _ToolCall :=
  ⟨"read", .mk [("path", "f"), ("lines", "1-2-3")] []⟩

/-- A finish ToolCall with a file spec carrying the same malformed
`lines`. -/
def badFinishCall : _ToolCall :=
  ⟨"finish", .mk [] [.mk [("path", "f"), ("lines", "1-2-3")] []]⟩

/-- **C10**.  The read executor is not total over its `lines` argument:
on an existing file, `lines = "1-2-3"` (three-way unpack) and
`lines = "abc"` (`int()` failure) raise an uncaught `ValueError` instead
of returning an `Error: …` string (first two conjuncts).  The turn loop's
tool-execution step (`execAllCalls`, the body of `warp_grep`'s per-call
dispatch) and the finish resolver invoke `_execute_read` outside any
exception handler, so the exception propagates (third and fourth
conjuncts), and the loop's finish branch turns it into an exception
escaping the whole session rather than a single call's error text (last
conjunct). -/
theorem read_malformed_lines_raises_uncaught :
    _execute_read fsBadLines ["r"] "f" (some "1-2-3") = .error "ValueError" ∧
    _execute_read fsBadLines ["r"] "f" (some "abc") = .error "ValueError" ∧
    execAllCalls envBadLines ["r"] [badReadCall] = .error "ValueError" ∧
    _resolve_finish fsBadLines ["r"] badFinishCall = .error "ValueError" ∧
    finishResult envBadLines "q" ["r"] badFinishCall = .raised "ValueError" :=
  ⟨rfl, rfl, rfl, rfl, rfl⟩

/-- 201 files named `f300` down to `f100` (4-character names, so
lexicographic order is numeric order). -/
def bigDirEntries : List FsEntry :=
  (List.range 201).map (fun i => FsEntry.file ("f" ++ toString (300 - i)))

/-- Environment without the `tree` binary whose repo root holds
`bigDirEntries`. -/
def envFallbackBig : Env where
  apiKeyPresent := true
  fs := fun _ => none
  dirs := fun p => if p = [] then some bigDirEntries else none
  rgAvailable := false
  rgRun := fun _ _ _ => .ok ""
  treeAvailable := false
  treeRun := fun _ => .ok ""
  regexOk := fun _ => true
  regexSearch := fun _ _ => true
  systemPrompt := ""

set_option maxRecDepth 1000000 in
/-- **C2** (counterexample).  With the tree binary absent, a directory
whose fallback walk renders 201 lines (more than `MAX_LIST_LINES` = 200)
does *not* produce the sentinel: `_fallback_list_dir` slices the walk to
its first 200 lines before `_execute_list_directory`'s ceiling check, so
the check never fires in the fallback branch and a partial (200-line)
listing is returned. -/
theorem fallback_listing_truncates_without_sentinel :
    (walkFb none 4 0 bigDirEntries).length = 201 ∧
    _execute_list_directory envFallbackBig [] "." none =
      .ok (String.intercalate "\n" ((walkFb none 4 0 bigDirEntries).take 200)) ∧
    String.intercalate "\n" ((walkFb none 4 0 bigDirEntries).take 200) ≠ tooMuchSentinel := by
  refine ⟨by decide, rfl, by decide⟩

/-- **C2** (amended).  The 200-line ceiling with the sentinel holds in
the tree-binary branch: whenever the (pattern-filtered) rendering of the
tree output exceeds `MAX_LIST_LINES` lines, `_execute_list_directory`
returns exactly the sentinel (first conjunct).  In the manual fallback
branch, however, `_fallback_list_dir` truncates the walk to its first
`MAX_LIST_LINES` lines, so the surviving lines can never exceed the
ceiling: the sentinel is never produced there and the (possibly partial)
joined listing is returned instead (second conjunct). -/
theorem list_directory_ceiling_and_fallback_truncation :
    (∀ (env : Env) (repo_root : List String) (path : String) (pattern : Option String)
        (dp : List String) (entries : List FsEntry) (output : String),
      env.treeAvailable = true →
      _safe_path repo_root path = .ok dp →
      env.dirs dp = some entries →
      env.treeRun dp = .ok output →
      MAX_LIST_LINES < (listFiltered env pattern (pyLines output)).length →
      _execute_list_directory env repo_root path pattern = .ok tooMuchSentinel) ∧
    (∀ (env : Env) (repo_root : List String) (path : String) (pattern : Option String)
        (dp : List String) (entries : List FsEntry),
      env.treeAvailable = false →
      _safe_path repo_root path = .ok dp →
      env.dirs dp = some entries →
      (∀ p, pattern = some p → p = "" ∨ env.regexOk p = true) →
      ∃ fb, _fallback_list_dir env.regexOk env.regexSearch entries pattern = .ok fb ∧
        fb.length ≤ MAX_LIST_LINES ∧
        _execute_list_directory env repo_root path pattern =
          .ok (String.intercalate "\n" (listFiltered env pattern fb))) := by
  constructor
  · intro env repo_root path pattern dp entries output htree hsp hdirs hrun hlen
    unfold _execute_list_directory
    simp only [hsp, hdirs, htree, hrun, if_true]
    unfold listPost
    simp only [hlen, if_pos]
  · intro env repo_root path pattern dp entries htree hsp hdirs hpat
    have hfb : ∃ fb, _fallback_list_dir env.regexOk env.regexSearch entries pattern = .ok fb ∧
        fb.length ≤ MAX_LIST_LINES := by
      unfold _fallback_list_dir
      cases pattern with
      | none => exact ⟨_, rfl, List.length_take_le _ _⟩
      | some p =>
        dsimp only
        rcases hpat p rfl with hp | hp
        · exact ⟨_, by rw [if_pos hp], List.length_take_le _ _⟩
        · by_cases hpe : p = ""
          · exact ⟨_, by rw [if_pos hpe], List.length_take_le _ _⟩
          · exact ⟨_, by rw [if_neg hpe, if_pos hp], List.length_take_le _ _⟩
    obtain ⟨fb, hfbeq, hfblen⟩ := hfb
    refine ⟨fb, hfbeq, hfblen, ?_⟩
    have hflen : (listFiltered env pattern fb).length ≤ MAX_LIST_LINES := by
      refine le_trans ?_ hfblen
      unfold listFiltered
      cases pattern with
      | none => exact le_refl _
      | some p =>
        dsimp only
        by_cases hc : p ≠ "" ∧ ¬ fb.isEmpty
        · rw [if_pos hc]
          by_cases hok : env.regexOk p = true
          · rw [if_pos hok]; exact List.length_filter_le _ _
          · rw [if_neg hok]
        · rw [if_neg hc]
    unfold _execute_list_directory
    simp only [hsp, hdirs, htree, Bool.false_eq_true, if_false, hfbeq]
    unfold listPost
    rw [if_neg (by omega)]

/-- Environment with the `tree` binary whose output is 201 lines. -/
def envTreeBig : Env where
  apiKeyPresent := true
  fs := fun _ => none
  dirs := fun p => if p = [] then some [] else none
  rgAvailable := false
  rgRun := fun _ _ _ => .ok ""
  treeAvailable := true
  treeRun := fun _ => .ok grepWitnessOutput
  regexOk := fun _ => true
  regexSearch := fun _ _ => true
  systemPrompt := ""

set_option maxRecDepth 100000 in
/-- Witness for the amended **C2**: the tree branch over a 201-line
output yields the sentinel; the fallback branch over `bigDirEntries`
yields the truncated joined listing. -/
theorem list_directory_ceiling_and_fallback_truncation_witness :
    _execute_list_directory envTreeBig [] "." none = .ok tooMuchSentinel ∧
    ∃ fb, _fallback_list_dir envFallbackBig.regexOk envFallbackBig.regexSearch
        bigDirEntries none = .ok fb ∧
      fb.length ≤ MAX_LIST_LINES ∧
      _execute_list_directory envFallbackBig [] "." none =
        .ok (String.intercalate "\n" (listFiltered envFallbackBig none fb)) := by
  constructor
  · exact list_directory_ceiling_and_fallback_truncation.1 envTreeBig [] "." none [] []
      grepWitnessOutput rfl rfl rfl rfl (by decide)
  · exact list_directory_ceiling_and_fallback_truncation.2 envFallbackBig [] "." none []
      bigDirEntries rfl rfl rfl (fun p hp => by cases hp)

/-- The loop makes at most `fuel` model round trips. -/
theorem warpGrepAux_turn_bound (env : Env) (morph : List Message → Except String String)
    (query : String) (root : List String) :
    ∀ (fuel turn : Nat) (msgs : List Message) (chars : Nat),
      (warpGrepAux env morph query root fuel turn msgs chars).2 ≤ fuel := by
  intro fuel
  induction fuel with
  | zero => intro turn msgs chars; exact Nat.le_refl 0
  | succ n ih =>
    intro turn msgs chars
    unfold warpGrepAux
    cases hm : morph msgs with
    | error e => exact Nat.succ_le_succ (Nat.zero_le n)
    | ok response =>
      dsimp only
      by_cases hemp : (_parse_tool_calls response).isEmpty
      · rw [if_pos hemp]; exact Nat.succ_le_succ (Nat.zero_le n)
      · rw [if_neg hemp]
        cases hf : (_parse_tool_calls response).find? (fun tc => tc.name == "finish") with
        | some fc => exact Nat.succ_le_succ (Nat.zero_le n)
        | none =>
          cases he : execAllCalls env root (_parse_tool_calls response) with
          | error e => exact Nat.succ_le_succ (Nat.zero_le n)
          | ok outs => exact Nat.succ_le_succ (ih _ _ _)

/-- When every model response parses to a non-empty, finish-free call
list whose execution succeeds, the loop exhausts its fuel and yields the
turn-limit error, consuming exactly `fuel` round trips. -/
theorem warpGrepAux_no_finish (env : Env) (morph : List Message → Except String String)
    (query : String) (root : List String)
    (H : ∀ msgs, ∃ r outs, morph msgs = .ok r ∧
      (_parse_tool_calls r).isEmpty = false ∧
      (_parse_tool_calls r).find? (fun tc => tc.name == "finish") = none ∧
      execAllCalls env root (_parse_tool_calls r) = .ok outs) :
    ∀ (fuel turn : Nat) (msgs : List Message) (chars : Nat),
      warpGrepAux env morph query root fuel turn msgs chars =
        (.err "WarpGrep did not finish within turn limit.", fuel) := by
  intro fuel
  induction fuel with
  | zero => intro turn msgs chars; rfl
  | succ n ih =>
    intro turn msgs chars
    obtain ⟨r, outs, hm, hne, hnf, hex⟩ := H msgs
    unfold warpGrepAux
    rw [hm]
    dsimp only
    rw [hne]
    simp only [Bool.false_eq_true, if_false, hnf, hex]
    rw [ih]

/-- `pathResolve` of a canonical root absorbs a trailing `"."`. -/
theorem pathResolve_append_dot (root : List String) (hroot : pathResolve root = root) :
    pathResolve (root ++ ["."]) = root := by
  unfold pathResolve at hroot ⊢
  rw [List.foldl_append, hroot]
  rfl

/-- With an existing canonical root, `_get_repo_structure` always
succeeds: every failure of the underlying listing is already rendered as
an `Error: …` string. -/
theorem get_repo_structure_ok (env : Env) (root : List String) (entries : List FsEntry)
    (hroot : pathResolve root = root) (hdirs : env.dirs root = some entries) :
    ∃ s, _get_repo_structure env root = .ok s := by
  have hsp : _safe_path root "." = .ok root := by
    unfold _safe_path
    rw [show pathJoin root "." = root ++ ["."] from rfl, pathResolve_append_dot root hroot,
      hroot]
    simp [List.isPrefixOf_iff_prefix]
  unfold _get_repo_structure _execute_list_directory
  rw [hsp]
  dsimp only
  rw [hdirs]
  dsimp only
  by_cases ht : env.treeAvailable
  · rw [if_pos ht]
    cases htr : env.treeRun root with
    | error e => exact ⟨_, rfl⟩
    | ok output => exact ⟨_, rfl⟩
  · rw [if_neg ht]
    exact ⟨_, rfl⟩

/-- **C4**.  Every session performs at most `MAX_TURNS` = 4 model round
trips (first conjunct, unconditionally), and a session whose entry checks
pass and in which every parsed response is a non-empty tool-call list
with no finish call (and whose calls execute without raising) terminates
with exactly the turn-limit error after exactly 4 round trips (second
conjunct). -/
theorem warp_grep_turn_budget_and_limit_error (env : Env)
    (morph : List Message → Except String String) (query : String) (repo_root : List String) :
    (warp_grep env morph query repo_root).2 ≤ MAX_TURNS ∧
    (env.apiKeyPresent = true →
      pathResolve repo_root = repo_root →
      ∀ entries, env.dirs repo_root = some entries →
      (∀ msgs, ∃ r outs, morph msgs = .ok r ∧
        (_parse_tool_calls r).isEmpty = false ∧
        (_parse_tool_calls r).find? (fun tc => tc.name == "finish") = none ∧
        execAllCalls env repo_root (_parse_tool_calls r) = .ok outs) →
      warp_grep env morph query repo_root =
        (.err "WarpGrep did not finish within turn limit.", MAX_TURNS)) := by
  constructor
  · unfold warp_grep
    by_cases hk : env.apiKeyPresent
    · simp only [hk, Bool.not_true, Bool.false_eq_true, if_false]
      by_cases hd : (env.dirs (pathResolve repo_root)).isNone
      · rw [if_pos hd]; exact Nat.zero_le _
      · rw [if_neg hd]
        cases hs : _get_repo_structure env (pathResolve repo_root) with
        | error e => exact Nat.zero_le _
        | ok repoStruct => exact warpGrepAux_turn_bound env morph query _ MAX_TURNS 0 _ _
    · simp only [Bool.not_eq_true] at hk
      rw [hk]
      exact Nat.zero_le _
  · intro hk hroot entries hdirs H
    unfold warp_grep
    rw [hk]
    simp only [Bool.not_true, Bool.false_eq_true, if_false, hroot]
    rw [show (env.dirs repo_root).isNone = false by rw [hdirs]; rfl]
    simp only [Bool.false_eq_true, if_false]
    obtain ⟨s, hs⟩ := get_repo_structure_ok env repo_root entries hroot hdirs
    rw [hs]
    exact warpGrepAux_no_finish env morph query repo_root H MAX_TURNS 0 _ _

/-- A response carrying only a grep call. -/
def grepOnlyResponse : String := "<grep><pattern>q</pattern></grep>"

/-- Environment for the turn-limit witness: everything external exists
but `rg` is absent, so each grep call renders its error string and the
turn completes normally. -/
def envNoFinish : Env where
  apiKeyPresent := true
  fs := fun _ => none
  dirs := fun p => if p = [] then some [] else none
  rgAvailable := false
  rgRun := fun _ _ _ => .ok ""
  treeAvailable := false
  treeRun := fun _ => .ok ""
  regexOk := fun _ => true
  regexSearch := fun _ _ => true
  systemPrompt := "s"

/-- Witness for **C4**: a session whose four responses are all a lone
grep call ends with the turn-limit error after exactly 4 round trips. -/
theorem warp_grep_turn_budget_and_limit_error_witness :
    (warp_grep envNoFinish (fun _ => .ok grepOnlyResponse) "find it" []).2 ≤ MAX_TURNS ∧
    warp_grep envNoFinish (fun _ => .ok grepOnlyResponse) "find it" [] =
      (.err "WarpGrep did not finish within turn limit.", MAX_TURNS) := by
  have h := warp_grep_turn_budget_and_limit_error envNoFinish
    (fun _ => .ok grepOnlyResponse) "find it" []
  refine ⟨h.1, h.2 rfl rfl [] rfl ?_⟩
  intro msgs
  exact ⟨grepOnlyResponse, _, rfl, rfl, rfl, rfl⟩

/-- **C8**.  If the parsed calls of the current response contain a finish
call, the turn loop resolves the first one immediately and returns: the
result is exactly `finishResult` of that call after a single round trip,
for every remaining fuel and turn count, and it does not depend on the
executors — the sibling calls of the same response are never executed
(second conjunct: any environment with the same file view yields the same
result). -/
theorem finish_call_wins_turn (env : Env) (morph : List Message → Except String String)
    (query : String) (root : List String) (fuel turn : Nat) (msgs : List Message)
    (chars : Nat) (response : String) (fc : _ToolCall)
    (hm : morph msgs = .ok response)
    (hf : (_parse_tool_calls response).find? (fun tc => tc.name == "finish") = some fc) :
    warpGrepAux env morph query root (fuel + 1) turn msgs chars =
      (finishResult env query root fc, 1) ∧
    ∀ env' : Env, env'.fs = env.fs →
      finishResult env' query root fc = finishResult env query root fc := by
  have hne : (_parse_tool_calls response).isEmpty = false := by
    cases hcalls : _parse_tool_calls response with
    | nil => rw [hcalls] at hf; simp [List.find?] at hf
    | cons a t => rfl
  constructor
  · unfold warpGrepAux
    rw [hm]
    dsimp only
    rw [hne]
    simp only [Bool.false_eq_true, if_false, hf]
  · intro env' hfs
    unfold finishResult _resolve_finish
    rw [hfs]

/-- Witness for **C8**: a turn answering with a finish call (alongside a
grep call) returns the resolved finish immediately, after one round
trip. -/
theorem finish_call_wins_turn_witness :
    warpGrepAux envBadLines
        (fun _ => .ok "<grep><pattern>x</pattern></grep><finish><file><path>f</path></file></finish>")
        "q" ["r"] 4 0 [] 0 =
      (finishResult envBadLines "q" ["r"] ⟨"finish", .mk [] []⟩, 1) ∧
    ∀ env' : Env, env'.fs = envBadLines.fs →
      finishResult env' "q" ["r"] (⟨"finish", .mk [] []⟩ : _ToolCall) =
        finishResult envBadLines "q" ["r"] ⟨"finish", .mk [] []⟩ :=
  finish_call_wins_turn envBadLines
    (fun _ => .ok "<grep><pattern>x</pattern></grep><finish><file><path>f</path></file></finish>")
    "q" ["r"] 3 0 [] 0
    "<grep><pattern>x</pattern></grep><finish><file><path>f</path></file></finish>"
    ⟨"finish", .mk [] []⟩ rfl rfl

/-! ## The read selection, characterized

Specification-side definitions, written directly from the spec's words:
the selection is the ascending enumeration of the in-bounds 0-based
indices covered by some range (union, duplicates collapsed, clamped), and
the rendering inserts a `"..."` marker exactly between consecutive
selected lines that are non-adjacent in the source. -/

/-- Whether the 0-based index `i` is selected by some range: union of the
ranges, clamped to the file's bounds. -/
def specSelects (ranges : List (Int × Int)) (n : Nat) (i : Nat) : Bool :=
  ranges.any (fun r => decide (r.1 - 1 ≤ (i : Int)) && decide ((i : Int) < min r.2 (n : Int)))

/-- The selected indices, ascending and duplicate-free by construction. -/
def specSelected (ranges : List (Int × Int)) (n : Nat) : List Nat :=
  (List.range n).filter (specSelects ranges n)

/-- Rendering after the first selected line: a `"..."` marker exactly
when the next selected index is non-adjacent to the previous one `p`. -/
def specRenderTail (all : List String) (p : Nat) : List Nat → List String
  | [] => []
  | j :: rest =>
    (if p + 1 < j then ["..."] else []) ++
      (numberLine j (all.getD j "") :: specRenderTail all j rest)

/-- Spec-side rendering of a selection. -/
def specRender (all : List String) : List Nat → List String
  | [] => []
  | i :: rest => numberLine i (all.getD i "") :: specRenderTail all i rest

/-- An index is in-bounds for the fold. -/
def validIdx (n : Nat) (i : Int) : Bool :=
  decide (0 ≤ i) && decide (i < (n : Int))

theorem mem_intRange {a lo hi : Int} : a ∈ intRange lo hi ↔ lo ≤ a ∧ a < hi := by
  unfold intRange
  rw [List.mem_map]
  constructor
  · rintro ⟨k, hk, rfl⟩
    rw [List.mem_range] at hk
    omega
  · rintro ⟨h1, h2⟩
    refine ⟨(a - lo).toNat, ?_, by omega⟩
    rw [List.mem_range]
    omega

theorem mem_selectedIdxs {ranges : List (Int × Int)} {n : Nat} {a : Int} :
    a ∈ selectedIdxs ranges n ↔
      ∃ r ∈ ranges, r.1 - 1 ≤ a ∧ a < min r.2 (n : Int) := by
  unfold selectedIdxs
  suffices h : ∀ (init : List Int),
      a ∈ ranges.foldl (fun acc r => acc ++ intRange (r.1 - 1) (min r.2 (n : Int))) init ↔
        a ∈ init ∨ ∃ r ∈ ranges, r.1 - 1 ≤ a ∧ a < min r.2 (n : Int) by
    simpa using h []
  induction ranges with
  | nil => intro init; simp
  | cons r t ih =>
    intro init
    rw [List.foldl_cons, ih]
    simp only [List.mem_append, mem_intRange, List.mem_cons]
    constructor
    · rintro ((h | h) | ⟨r', hr', h⟩)
      · exact Or.inl h
      · exact Or.inr ⟨r, Or.inl rfl, h⟩
      · exact Or.inr ⟨r', Or.inr hr', h⟩
    · rintro (h | ⟨r', rfl | hr', h⟩)
      · exact Or.inl (Or.inl h)
      · exact Or.inl (Or.inr h)
      · exact Or.inr ⟨r', hr', h⟩

theorem mem_insertUnique {a x : Int} : ∀ {l : List Int},
    a ∈ insertUnique x l ↔ a = x ∨ a ∈ l := by
  intro l
  induction l with
  | nil => simp [insertUnique]
  | cons y ys ih =>
    unfold insertUnique
    by_cases h1 : x < y
    · rw [if_pos h1]; simp
    · rw [if_neg h1]
      by_cases h2 : x = y
      · subst h2; rw [if_pos rfl]; simp only [List.mem_cons]; tauto
      · rw [if_neg h2]
        simp only [List.mem_cons, ih]
        tauto

theorem sorted_insertUnique {x : Int} : ∀ {l : List Int},
    List.Sorted (· < ·) l → List.Sorted (· < ·) (insertUnique x l) := by
  intro l
  induction l with
  | nil => intro _; simp [insertUnique]
  | cons y ys ih =>
    intro hs
    rw [List.sorted_cons] at hs
    obtain ⟨hy, hys⟩ := hs
    unfold insertUnique
    by_cases h1 : x < y
    · rw [if_pos h1, List.sorted_cons]
      refine ⟨?_, List.sorted_cons.mpr ⟨hy, hys⟩⟩
      intro b hb
      rcases List.mem_cons.mp hb with rfl | hb
      · exact h1
      · exact lt_trans h1 (hy b hb)
    · rw [if_neg h1]
      by_cases h2 : x = y
      · subst h2; rw [if_pos rfl]
        exact List.sorted_cons.mpr ⟨hy, hys⟩
      · rw [if_neg h2, List.sorted_cons]
        refine ⟨?_, ih hys⟩
        intro b hb
        rcases mem_insertUnique.mp hb with rfl | hb
        · omega
        · exact hy b hb

theorem sorted_sortedDedup (l : List Int) : List.Sorted (· < ·) (sortedDedup l) := by
  unfold sortedDedup
  suffices h : ∀ (init : List Int), List.Sorted (· < ·) init →
      List.Sorted (· < ·) (l.foldl (fun acc x => insertUnique x acc) init) from
    h [] (by simp)
  induction l with
  | nil => intro init h; exact h
  | cons x t ih => intro init h; exact ih _ (sorted_insertUnique h)

theorem mem_sortedDedup {a : Int} {l : List Int} : a ∈ sortedDedup l ↔ a ∈ l := by
  unfold sortedDedup
  suffices h : ∀ (init : List Int),
      a ∈ l.foldl (fun acc x => insertUnique x acc) init ↔ a ∈ init ∨ a ∈ l by
    simpa using h []
  induction l with
  | nil => intro init; simp
  | cons x t ih =>
    intro init
    rw [List.foldl_cons, ih, mem_insertUnique]
    simp only [List.mem_cons]
    tauto

theorem foldl_eq_foldl_filter {α β : Type} (f : β → α → β) (p : α → Bool)
    (hf : ∀ st x, p x = false → f st x = st) :
    ∀ (l : List α) (st : β), l.foldl f st = (l.filter p).foldl f st := by
  intro l
  induction l with
  | nil => intro st; rfl
  | cons x t ih =>
    intro st
    rw [List.foldl_cons]
    cases hp : p x with
    | true => rw [List.filter_cons_of_pos hp, List.foldl_cons, ih]
    | false => rw [List.filter_cons_of_neg (by simp [hp]), hf st x hp, ih]

theorem readStep_tail (all : List String) :
    ∀ (l : List Int) (p : Nat) (out : List String),
      List.Sorted (· < ·) l →
      (∀ i ∈ l, (p : Int) < i) →
      (∀ i ∈ l, 0 ≤ i ∧ i < (all.length : Int)) →
      (l.foldl (readStep all) ((p : Int), out)).2 =
        out ++ specRenderTail all p (l.map Int.toNat) := by
  intro l
  induction l with
  | nil => intro p out _ _ _; simp [specRenderTail]
  | cons j t ih =>
    intro p out hs hgt hb
    rw [List.sorted_cons] at hs
    obtain ⟨hjt, hts⟩ := hs
    have hj := hb j (List.mem_cons_self _ _)
    have hpj := hgt j (List.mem_cons_self _ _)
    rw [List.foldl_cons]
    have hstep : readStep all ((p : Int), out) j =
        (j, (out ++ (if p + 1 < j.toNat then ["..."] else [])) ++
          [numberLine j.toNat (all.getD j.toNat "")]) := by
      unfold readStep
      rw [if_neg (by omega)]
      dsimp only
      by_cases hm : p + 1 < j.toNat
      · rw [if_pos (by omega), if_pos hm]
      · rw [if_neg (by omega), if_neg hm]
        simp
    rw [hstep]
    have hjc : ((j.toNat : Nat) : Int) = j := Int.toNat_of_nonneg hj.1
    have hrec := ih j.toNat
      ((out ++ (if p + 1 < j.toNat then ["..."] else [])) ++
        [numberLine j.toNat (all.getD j.toNat "")])
      hts (by intro i hi; rw [hjc]; exact hjt i hi)
      (by intro i hi; exact hb i (List.mem_cons_of_mem _ hi))
    rw [hjc] at hrec
    rw [hrec]
    simp only [List.map_cons, specRenderTail]
    simp [List.append_assoc]

theorem readRenderFold_eq_specRender (all : List String) (l : List Int)
    (hs : List.Sorted (· < ·) l)
    (hb : ∀ i ∈ l, 0 ≤ i ∧ i < (all.length : Int)) :
    readRenderFold all l = specRender all (l.map Int.toNat) := by
  unfold readRenderFold
  cases l with
  | nil => rfl
  | cons i t =>
    rw [List.sorted_cons] at hs
    obtain ⟨hit, hts⟩ := hs
    have hi := hb i (List.mem_cons_self _ _)
    rw [List.foldl_cons]
    have hstep : readStep all (-2, []) i =
        (i, [numberLine i.toNat (all.getD i.toNat "")]) := by
      unfold readStep
      rw [if_neg (by omega)]
      dsimp only
      rw [if_neg (by omega)]
      simp
    rw [hstep]
    have hic : ((i.toNat : Nat) : Int) = i := Int.toNat_of_nonneg hi.1
    have hrec := readStep_tail all t i.toNat [numberLine i.toNat (all.getD i.toNat "")]
      hts (by intro b hbm; rw [hic]; exact hit b hbm)
      (by intro b hbm; exact hb b (List.mem_cons_of_mem _ hbm))
    rw [hic] at hrec
    rw [hrec]
    simp [specRender]

theorem mem_specSelected {ranges : List (Int × Int)} {n i : Nat} :
    i ∈ specSelected ranges n ↔
      i < n ∧ ∃ r ∈ ranges, r.1 - 1 ≤ (i : Int) ∧ (i : Int) < min r.2 (n : Int) := by
  unfold specSelected specSelects
  rw [List.mem_filter, List.mem_range]
  simp [List.any_eq_true]

theorem sorted_specSelected (ranges : List (Int × Int)) (n : Nat) :
    List.Sorted (· < ·) (specSelected ranges n) := by
  unfold specSelected
  exact (List.pairwise_lt_range n).filter _

theorem nodup_specSelected (ranges : List (Int × Int)) (n : Nat) :
    (specSelected ranges n).Nodup :=
  (sorted_specSelected ranges n).imp (fun h => ne_of_lt h)

theorem filtered_eq_specSelected (ranges : List (Int × Int)) (n : Nat) :
    ((sortedDedup (selectedIdxs ranges n)).filter (validIdx n)).map Int.toNat =
      specSelected ranges n := by
  have hsortInt : List.Sorted (· < ·)
      ((sortedDedup (selectedIdxs ranges n)).filter (validIdx n)) :=
    (sorted_sortedDedup _).filter _
  have hbound : ∀ a ∈ (sortedDedup (selectedIdxs ranges n)).filter (validIdx n),
      0 ≤ a ∧ a < (n : Int) := by
    intro a ha
    have := (List.mem_filter.mp ha).2
    unfold validIdx at this
    simp at this
    exact this
  have hsortL : List.Sorted (· < ·)
      (((sortedDedup (selectedIdxs ranges n)).filter (validIdx n)).map Int.toNat) := by
    refine List.pairwise_map.mpr (List.Pairwise.imp_of_mem ?_ hsortInt)
    intro a b ha hb hab
    have h1 := hbound a ha
    have h2 := hbound b hb
    omega
  have hnodupL : (((sortedDedup (selectedIdxs ranges n)).filter (validIdx n)).map
      Int.toNat).Nodup :=
    hsortL.imp (fun h => ne_of_lt h)
  have hmem : ∀ m, m ∈ ((sortedDedup (selectedIdxs ranges n)).filter (validIdx n)).map
      Int.toNat ↔ m ∈ specSelected ranges n := by
    intro m
    rw [mem_specSelected]
    simp only [List.mem_map, List.mem_filter, mem_sortedDedup, mem_selectedIdxs]
    constructor
    · rintro ⟨a, ⟨⟨r, hr, h1, h2⟩, hv⟩, rfl⟩
      unfold validIdx at hv
      simp at hv
      refine ⟨by omega, r, hr, by omega, by omega⟩
    · rintro ⟨hm, r, hr, h1, h2⟩
      refine ⟨(m : Int), ⟨⟨r, hr, h1, by omega⟩, ?_⟩, by omega⟩
      unfold validIdx
      simp
      omega
  haveI : IsAntisymm Nat (· ≤ ·) := ⟨fun a b h1 h2 => Nat.le_antisymm h1 h2⟩
  refine List.eq_of_perm_of_sorted (r := (· ≤ ·)) ?_ ?_ ?_
  · exact (List.perm_ext_iff_of_nodup hnodupL (nodup_specSelected ranges n)).mpr hmem
  · exact hsortL.imp (fun h => le_of_lt h)
  · exact (sorted_specSelected ranges n).imp (fun h => le_of_lt h)

theorem readRenderFold_sortedDedup (all : List String) (ranges : List (Int × Int)) :
    readRenderFold all (sortedDedup (selectedIdxs ranges all.length)) =
      specRender all (specSelected ranges all.length) := by
  have h1 : readRenderFold all (sortedDedup (selectedIdxs ranges all.length)) =
      readRenderFold all
        ((sortedDedup (selectedIdxs ranges all.length)).filter (validIdx all.length)) := by
    unfold readRenderFold
    rw [foldl_eq_foldl_filter (readStep all) (validIdx all.length) ?_]
    intro st x hx
    unfold validIdx at hx
    simp at hx
    unfold readStep
    rw [if_pos (by omega)]
  have hb : ∀ i ∈ (sortedDedup (selectedIdxs ranges all.length)).filter
      (validIdx all.length), 0 ≤ i ∧ i < (all.length : Int) := by
    intro i hi
    have := (List.mem_filter.mp hi).2
    unfold validIdx at this
    simp at this
    exact this
  rw [h1, readRenderFold_eq_specRender all _ ((sorted_sortedDedup _).filter _) hb,
    filtered_eq_specSelected]

theorem readRender_some (all : List String) (s : String) (ranges : List (Int × Int))
    (hs0 : ¬ s = "") (hparse : parseLinesRanges s = some ranges) :
    readRender all (some s) =
      .ok (readCap all (specRender all (specSelected ranges all.length))) := by
  unfold readRender
  dsimp only
  rw [if_neg hs0, hparse]
  dsimp only
  rw [readRenderFold_sortedDedup]

theorem readRender_eq_spec (all : List String) (s : String) (ranges : List (Int × Int))
    (hparse : parseLinesRanges s = some ranges)
    (hcap : (specRender all (specSelected ranges all.length)).length ≤ MAX_READ_LINES) :
    readRender all (some s) = .ok (specRender all (specSelected ranges all.length)) := by
  have hs0 : ¬ s = "" := by
    intro h
    subst h
    rw [show parseLinesRanges "" = none from rfl] at hparse
    cases hparse
  rw [readRender_some all s ranges hs0 hparse]
  unfold readCap
  rw [if_neg (by omega)]

/-- **C6** (amended).  For every file and every well-formed
comma-separated `lines` argument, provided the rendered selection fits
under the 800-line read cap, `_execute_read` outputs exactly the
spec-side rendering: the ascending duplicate-free enumeration of the
selected in-bounds 0-based indices (union of the ranges, duplicates
collapsed, clamped to the file), with a `"..."` marker exactly between
consecutive output lines that are non-adjacent in the source (first
conjunct); the selection is duplicate-free, ascending, and contains an
index iff it is in bounds and covered by some range (remaining
conjuncts).  The cap proviso is forced by the counterexample: beyond 800
output lines `_execute_read` truncates, so a selected line can be absent
from the output. -/
theorem read_lines_union_dedup_clamp_markers (fs : Fs) (repo_root : List String)
    (path text : String) (fp : List String) (s : String) (ranges : List (Int × Int))
    (hsp : _safe_path repo_root path = .ok fp)
    (hfs : fs fp = some text)
    (hparse : parseLinesRanges s = some ranges)
    (hcap : (specRender (pySplitlines text)
      (specSelected ranges (pySplitlines text).length)).length ≤ MAX_READ_LINES) :
    _execute_read fs repo_root path (some s) =
      .ok (String.intercalate "\n" (specRender (pySplitlines text)
        (specSelected ranges (pySplitlines text).length))) ∧
    (specSelected ranges (pySplitlines text).length).Nodup ∧
    List.Sorted (· < ·) (specSelected ranges (pySplitlines text).length) ∧
    (∀ i : Nat, i ∈ specSelected ranges (pySplitlines text).length ↔
      i < (pySplitlines text).length ∧
        ∃ r ∈ ranges, r.1 - 1 ≤ (i : Int) ∧
          (i : Int) < min r.2 ((pySplitlines text).length : Int)) := by
  refine ⟨?_, nodup_specSelected _ _, sorted_specSelected _ _, fun i => mem_specSelected⟩
  unfold _execute_read
  simp only [hsp, hfs]
  rw [readRender_eq_spec _ s ranges hparse hcap]
  rfl

/-- Six-line file `a`. -/
def fsSixLines : Fs :=
  fun p => if p = ["a"] then some "l1\nl2\nl3\nl4\nl5\nl6" else none

/-- Witness for the amended **C6**: `lines = "5-5,5-5"` selects line 5
exactly once. -/
theorem read_lines_union_dedup_clamp_markers_witness :
    _execute_read fsSixLines [] "a" (some "5-5,5-5") = .ok "5|l5" ∧
    specSelected [(5, 5), (5, 5)] 6 = [4] := by
  have h := read_lines_union_dedup_clamp_markers fsSixLines [] "a" "l1\nl2\nl3\nl4\nl5\nl6"
    ["a"] "5-5,5-5" [(5, 5), (5, 5)] rfl rfl rfl (by decide)
  exact ⟨h.1.trans (by rfl), by decide⟩

theorem specRenderTail_consecutive (all : List String) :
    ∀ (n p : Nat),
      specRenderTail all p (List.range' (p + 1) n) =
        (List.range' (p + 1) n).map (fun i => numberLine i (all.getD i "")) := by
  intro n
  induction n with
  | zero => intro p; rfl
  | succ m ih =>
    intro p
    rw [List.range'_succ]
    unfold specRenderTail
    rw [if_neg (by omega)]
    rw [ih (p + 1)]
    simp

/-- A consecutive selection renders without any `"..."` marker. -/
theorem specRender_range (all : List String) (n : Nat) :
    specRender all (List.range n) =
      (List.range n).map (fun i => numberLine i (all.getD i "")) := by
  cases n with
  | zero => rfl
  | succ m =>
    rw [List.range_eq_range', List.range'_succ]
    unfold specRender
    dsimp only
    rw [specRenderTail_consecutive all m 0]
    simp

theorem getD_replicate_of_lt {α : Type} (a d : α) :
    ∀ (n i : Nat), i < n → (List.replicate n a).getD i d = a := by
  intro n
  induction n with
  | zero => intro i h; omega
  | succ m ih =>
    intro i h
    cases i with
    | zero => rfl
    | succ j => exact ih j (by omega)

set_option maxRecDepth 100000 in
/-- **C6** (counterexample).  On an 801-line file with
`lines = "1-801"`, index 800 (line 801) is selected and in bounds, yet
the output `_execute_read` builds contains its numbered line `"801|x"`
zero times: the 800-line cap truncates the selection, so "each selected
line appears exactly once" fails without the cap proviso. -/
theorem read_cap_drops_selected_line :
    800 ∈ specSelected [(1, 801)] 801 ∧
    readRender (List.replicate 801 "x") (some "1-801") =
      .ok ((List.range MAX_READ_LINES).map
          (fun i => numberLine i "x") ++ ["... truncated (801 total lines)"]) ∧
    ((List.range MAX_READ_LINES).map (fun i => numberLine i "x") ++
      ["... truncated (801 total lines)"]).count (numberLine 800 "x") = 0 := by
  refine ⟨by decide, ?_, by decide⟩
  rw [readRender_some (List.replicate 801 "x") "1-801" [(1, 801)] (by decide) (by decide)]
  rw [show (List.replicate 801 "x").length = 801 from by simp]
  rw [show specSelected [(1, 801)] 801 = List.range 801 from by decide]
  rw [specRender_range]
  rw [List.map_congr_left (g := fun i => numberLine i "x") (fun i hi => by
    rw [getD_replicate_of_lt "x" "" 801 i (List.mem_range.mp hi)])]
  unfold readCap
  rw [if_pos (by simp only [List.length_map, List.length_range, MAX_READ_LINES]; omega)]
  rw [show ((List.range 801).map (fun i => numberLine i "x")).take MAX_READ_LINES =
    (List.range MAX_READ_LINES).map (fun i => numberLine i "x") from by
      rw [← List.map_take, List.take_range]
      rfl]
  rw [show (List.replicate 801 "x").length = 801 from by simp]
  rfl

end WarpGrep
